import Mathlib

/-!
A shallow embedding of the `elf-owl` tool (Go sources `src/main.go` and
`src/unnamed/part_000`) together with proofs about its components:

* the Workflow Orchestrator (`gitOperations`), modelled against an abstract
  command runner given as an oracle of per-invocation outcomes;
* the Interactive Selector Bridge (`selectFileWithFzf`), modelled on the
  observable outcome of the spawned finder process;
* the Name Deriver (`generateBranchName`) with faithful renderings of Go's
  `filepath.Base`, `filepath.Ext`, `strings.TrimSuffix`, `strings.Map` and the
  `"06-01-02"` time format;
* the destination-path computations of both source variants;
* the File Enumerator (`findFiles` via `walk`) over an explicit model of a
  directory tree, and the entry-point pipeline (`mainModel`).
-/

namespace ElfOwl

/-! ## External commands and the Workflow Orchestrator (`gitOperations`) -/

/-- An external command: program name plus ordered argument list. -/
structure Cmd where
  name : String
  args : List String
deriving DecidableEq, Repr

/-- A step of the orchestrator as observed from the outside: either the
`os.Chdir` into the target directory or one external-command invocation. -/
inductive Step where
  | chdir (dir : String)
  | run (c : Cmd)
deriving DecidableEq, Repr

/-- The happy-emoji pool of `getRandomEmojis` in `src/main.go`. -/
def happyEmojis : List String := ["😊", "😃", "😄", "🙂", "😁", "😎"]

/-- The bird-emoji pool of `getRandomEmojis` in `src/main.go` (note that
"🦅" and "🦢" each occur twice in the source list). -/
def birdEmojis : List String :=
  ["🐧", "🦉", "🦅", "🦆", "🦢", "🦜", "🦚", "🐤", "🦃", "🦅", "🦢", "🐦", "🕊️"]

/-- `getRandomEmojis` from `src/main.go`, with the two `rand.Intn` draws
exposed as index parameters `i < happyEmojis.length`, `j < birdEmojis.length`. -/
def getRandomEmojis (i j : Nat) : String × String :=
  (happyEmojis.getD i "", birdEmojis.getD j "")

/-- The six external commands issued by `gitOperations` in `src/main.go`,
in source order, for branch `branch` and PR-body emojis `happy`, `bird`. -/
def gitCmds (branch happy bird : String) : List Cmd :=
  [⟨"git", ["checkout", "-b", branch]⟩,
   ⟨"git", ["add", "."]⟩,
   ⟨"git", ["commit", "-m", "Add " ++ branch]⟩,
   ⟨"git", ["push", "--set-upstream", "origin", branch]⟩,
   ⟨"gh", ["pr", "create", "--title", branch, "--body", "New finding! " ++ happy ++ bird]⟩,
   ⟨"gh", ["browse"]⟩]

/-- The per-step error messages of `gitOperations` (the prefix of each
`fmt.Errorf` format string), in source order. -/
def stepErrMsgs : List String :=
  ["failed to create branch", "failed to stage changes", "failed to commit changes",
   "failed to push changes", "failed to create pr", "failed to open browser"]

/-- Commands paired with the error message reported when they fail. -/
def gitSteps (branch happy bird : String) : List (Cmd × String) :=
  (gitCmds branch happy bird).zip stepErrMsgs

/-- Run a sequence of commands against the outcome oracle `runner`
(`runner i = true` means the `i`-th invocation, 0-indexed globally, exits
successfully).  Returns the commands actually invoked, in order, and the
error message of the first failing one (`none` when all succeed).  This is
the `if err := runCommand(...); err != nil { return ... }` chain of
`gitOperations`. -/
def runSeq (runner : Nat → Bool) : Nat → List (Cmd × String) → List Cmd × Option String
  | _, [] => ([], none)
  | i, s :: rest =>
    if runner i then
      let r := runSeq runner (i + 1) rest
      (s.1 :: r.1, r.2)
    else ([s.1], some s.2)

/-- `gitOperations` from `src/main.go`: change into the target directory,
then run the six commands in order, fail-fast.  `chdirOk` models the outcome
of `os.Chdir(targetDir)`.  Returns the observed step trace and the error
result. -/
def gitOperations (branch targetDir : String) (chdirOk : Bool) (runner : Nat → Bool)
    (happy bird : String) : List Step × Option String :=
  if chdirOk then
    let r := runSeq runner 0 (gitSteps branch happy bird)
    (Step.chdir targetDir :: r.1.map Step.run, r.2)
  else ([Step.chdir targetDir], some "failed to change to target directory")

/-! ## Interactive Selector Bridge (`selectFileWithFzf`) -/

/-- Go's `unicode.IsSpace`: the Unicode White_Space property, i.e. the code
points U+0009–U+000D, U+0020, U+0085, U+00A0, U+1680, U+2000–U+200A, U+2028,
U+2029, U+202F, U+205F and U+3000. -/
def isSpaceChar (c : Char) : Bool :=
  let n := c.toNat
  (9 ≤ n && n ≤ 13) || n = 32 || n = 0x85 || n = 0xA0 || n = 0x1680 ||
  (0x2000 ≤ n && n ≤ 0x200A) || n = 0x2028 || n = 0x2029 || n = 0x202F ||
  n = 0x205F || n = 0x3000

/-- Model of Go's `strings.TrimSpace`: drop leading and trailing
`unicode.IsSpace` characters. -/
def trimSpace (s : String) : String :=
  ⟨((s.data.dropWhile isSpaceChar).reverse.dropWhile isSpaceChar).reverse⟩

/-- Outcome of the selector bridge: a selection string, or an error message. -/
inductive FzfResult where
  | ok (selection : String)
  | err (msg : String)
deriving DecidableEq, Repr

/-- `selectFileWithFzf` from `src/main.go`, as a function of the observable
behaviour of the spawned finder process: `startOk` is whether `cmd.Start()`
succeeded (false when the binary is missing), `firstLine` is the first line
scanned from its stdout (`none` when it produced no output; the scanner
strips the line terminator), and `exitCode` its exit code.  The candidate
list is written to the finder concurrently and does not influence the
outcome mapping. -/
def selectFileWithFzf (startOk : Bool) (firstLine : Option String) (exitCode : Nat) :
    FzfResult :=
  if !startOk then .err "failed to start fzf"
  else
    let selected := firstLine.getD ""
    if exitCode = 0 then .ok (trimSpace selected)
    else if exitCode = 130 then .err "file selection cancelled"
    else .err "fzf failed"

/-! ## Name Deriver (`generateBranchName`) -/

/-- Go's `filepath.Base`: last element of the path after removing trailing
slashes; `"."` for the empty path; `"/"` when the path is all slashes. -/
def filepathBase (p : String) : String :=
  if p.data = [] then "."
  else
    let r := p.data.reverse.dropWhile (fun c => c = '/')
    if r = [] then "/"
    else ⟨(r.takeWhile (fun c => c != '/')).reverse⟩

/-- Go's `filepath.Ext`: the suffix of the final path element starting at its
final dot; empty when the final element has no dot. -/
def filepathExt (p : String) : String :=
  let r := p.data.reverse.takeWhile (fun c => c != '/')
  if r.dropWhile (fun c => c != '.') = [] then ""
  else ⟨'.' :: (r.takeWhile (fun c => c != '.')).reverse⟩

/-- Go's `strings.TrimSuffix`. -/
def trimSuffix (s suff : String) : String :=
  if suff.data.isSuffixOf s.data then ⟨s.data.take (s.data.length - suff.data.length)⟩ else s

/-- The per-rune sanitizer inside `generateBranchName`: keep `[A-Za-z0-9]`,
map anything else to a dash. -/
def sanitizeChar (c : Char) : Char :=
  if ('a' ≤ c ∧ c ≤ 'z') ∨ ('A' ≤ c ∧ c ≤ 'Z') ∨ ('0' ≤ c ∧ c ≤ '9') then c else '-'

/-- One decimal digit character (callers always pass a value `< 10`). -/
def digitChar (n : Nat) : Char :=
  match n with
  | 0 => '0' | 1 => '1' | 2 => '2' | 3 => '3' | 4 => '4'
  | 5 => '5' | 6 => '6' | 7 => '7' | 8 => '8' | _ => '9'

/-- A two-digit zero-padded decimal rendering (of `n % 100`), as Go's time
layout components `06`, `01`, `02` produce for year-mod-100, month and day. -/
def pad2 (n : Nat) : String := ⟨[digitChar ((n / 10) % 10), digitChar (n % 10)]⟩

/-- The `time.Now().Format("06-01-02")` date string for year `y`, month `m`,
day `d`. -/
def formatDate (y m d : Nat) : String :=
  pad2 (y % 100) ++ "-" ++ pad2 m ++ "-" ++ pad2 d

/-- `generateBranchName` from `src/main.go`, with the current date exposed as
explicit arguments `y m d`. -/
def generateBranchName (filename : String) (y m d : Nat) : String :=
  let base := trimSuffix (filepathBase filename) (filepathExt filename)
  let sanitized : String := ⟨base.data.map sanitizeChar⟩
  sanitized ++ "-" ++ formatDate y m d

/-- The branch name used by `main`: the `--branch` flag verbatim when
non-empty, otherwise derived from the selected file and the date. -/
def finalBranchName (branchFlag selected : String) (y m d : Nat) : String :=
  if branchFlag = "" then generateBranchName selected y m d else branchFlag

/-- A character allowed by the spec's BranchName invariant: alphanumeric or
dash. -/
def isAlnumDash (c : Char) : Bool :=
  ('a' ≤ c && c ≤ 'z') || ('A' ≤ c && c ≤ 'Z') || ('0' ≤ c && c ≤ '9') || c = '-'

/-! ## Destination paths of the two source variants -/

/-- Go's `filepath.Join` restricted to the already-clean paths this program
joins (no `.`/`..` segments, no redundant slashes): concatenation with a
single separator, with empty components ignored. -/
def joinPath (a b : String) : String :=
  if a = "" then b else if b = "" then a else a ++ "/" ++ b

/-- Destination path computed by `src/main.go` line 275:
`filepath.Join(absTargetDir, filepath.Base(selectedFile))`. -/
def destPathMainGo (target selected : String) : String :=
  joinPath target (filepathBase selected)

/-- Destination path computed by `src/unnamed/part_000` line 249:
`filepath.Join(absTargetDir, selectedFile)`. -/
def destPathPart000 (target selected : String) : String :=
  joinPath target selected

/-- The uniformity reading of "drawn uniformly at random from a small fixed
set": drawing a uniformly random position of `l` gives every member of the
set of values the same probability, i.e. every value occurring in `l` occurs
equally often. -/
def uniformFromList (l : List String) : Prop :=
  ∀ a ∈ l, ∀ b ∈ l, l.count a = l.count b

instance (l : List String) : Decidable (uniformFromList l) := by
  unfold uniformFromList; infer_instance

/-! ## File Enumerator (`findFiles`) over a directory-tree model

A directory listing is modelled as a cons-structured tree: `file n rest` is a
regular file named `n` followed by the remaining sibling entries, `dir n
children rest` a subdirectory, and `bad n rest` an entry whose visit reports
an I/O error (an unreadable entry).  Sibling order is the order in which
`filepath.Walk` visits the entries (its lexical order), so the model's
enumeration is the walk's deterministic order. -/

inductive FsTree where
  | nil
  | file (name : String) (rest : FsTree)
  | dir (name : String) (children : FsTree) (rest : FsTree)
  | bad (name : String) (rest : FsTree)
deriving DecidableEq, Repr

/-- The relative path of an entry named `n` inside the directory with
relative path `pre` (`""` for the root), exactly the strings `filepath.Rel`
yields during the walk. -/
def joinRel (pre n : String) : String := if pre = "" then n else pre ++ "/" ++ n

/-- The `filepath.Walk` callback of `findFiles`: collect every non-directory
entry as a path relative to the root, appending as the walk proceeds; a
visit that reports an error aborts the walk, returning the entries appended
so far together with the error (this is the `return files, err` of the Go
code). -/
def walk (pre : String) : FsTree → List String × Option String
  | .nil => ([], none)
  | .file n rest =>
    let r := walk pre rest
    (joinRel pre n :: r.1, r.2)
  | .bad _ _ => ([], some "io error")
  | .dir n children rest =>
    let rc := walk (joinRel pre n) children
    match rc.2 with
    | some e => (rc.1, some e)
    | none =>
      let r := walk pre rest
      (rc.1 ++ r.1, r.2)

/-- `findFiles` from `src/main.go`: walk the root (a missing root makes the
walk report an error on its first visit). -/
def findFiles : Option FsTree → List String × Option String
  | none => ([], some "root does not exist")
  | some t => walk "" t

/-- A well-formed filesystem name: nonempty and without a path separator. -/
def goodName (n : String) : Bool := !(n.data.isEmpty) && !(n.data.contains '/')

/-- The names of the top-level sibling entries of a listing. -/
def names : FsTree → List String
  | .nil => []
  | .file n rest => n :: names rest
  | .dir n _ rest => n :: names rest
  | .bad n rest => n :: names rest

/-- A well-formed directory tree: every name is a good name, sibling names
are pairwise distinct, and no entry is unreadable. -/
def wf : FsTree → Bool
  | .nil => true
  | .file n rest => goodName n && !((names rest).contains n) && wf rest
  | .dir n children rest =>
    goodName n && !((names rest).contains n) && wf children && wf rest
  | .bad _ _ => false

/-- Whether the tree contains an unreadable entry. -/
def hasBad : FsTree → Bool
  | .nil => false
  | .file _ rest => hasBad rest
  | .dir _ children rest => hasBad children || hasBad rest
  | .bad _ _ => true

/-- Specification side: the component paths (lists of names, outermost
first) of all regular files present in the tree. -/
def filePathsC : FsTree → List (List String)
  | .nil => []
  | .file n rest => [n] :: filePathsC rest
  | .dir n children rest => (filePathsC children).map (fun c => n :: c) ++ filePathsC rest
  | .bad _ rest => filePathsC rest

/-- Specification side: whether a regular file lives at component path `c`
in the tree (directories themselves never qualify). -/
def hasFile : FsTree → List String → Bool
  | .nil, _ => false
  | .file n rest, c => (c == [n]) || hasFile rest c
  | .dir n children rest, c =>
    (match c with
     | [] => false
     | n' :: c' => (n' == n) && hasFile children c') || hasFile rest c
  | .bad _ rest, c => hasFile rest c

/-- Render a component path as the relative path string the walk produces. -/
def joinComps : List String → String
  | [] => ""
  | [n] => n
  | n :: rest => n ++ "/" ++ joinComps rest

/-! ## Entry point pipeline (`main`) -/

/-- The observable outcome of one run of `main` (after flag parsing):
process exit code, the final message, and whether the selector was launched,
a copy attempted, and the git workflow entered. -/
structure RunResult where
  exitCode : Nat
  message : String
  selectorInvoked : Bool
  copyAttempted : Bool
  gitRun : Bool
deriving DecidableEq, Repr

/-- The `main` function of `src/main.go` from flag validation onwards:
`searchGiven` is whether `--search` was supplied, `root` the search tree
(`none` when the search directory does not exist — caught by the `os.Stat`
check), `toolsOk` whether `fzf`, `git` and `gh` resolve on the path, `fzf`
the selector bridge's outcome on the candidate list, and the remaining
arguments feed the copy and the git workflow. -/
def mainModel (searchGiven : Bool) (root : Option FsTree) (toolsOk : Bool)
    (fzf : List String → FzfResult) (branchFlag targetDir : String) (y m d : Nat)
    (copyOk chdirOk : Bool) (runner : Nat → Bool) (happy bird : String) : RunResult :=
  if !searchGiven then ⟨1, "error: search directory is required", false, false, false⟩
  else
    match root with
    | none => ⟨1, "error: search directory does not exist", false, false, false⟩
    | some t =>
      if !toolsOk then ⟨1, "error: required command not found in path", false, false, false⟩
      else
        let fe := findFiles (some t)
        if fe.2.isSome then ⟨1, "error finding files", false, false, false⟩
        else if fe.1.isEmpty then
          ⟨1, "no files found in search directory", false, false, false⟩
        else
          match fzf fe.1 with
          | .err _ => ⟨1, "error selecting file", true, false, false⟩
          | .ok sel =>
            if sel = "" then ⟨1, "no file selected", true, false, false⟩
            else
              let bn := finalBranchName branchFlag sel y m d
              if !copyOk then ⟨1, "error copying file", true, true, false⟩
              else
                match (gitOperations bn targetDir chdirOk runner happy bird).2 with
                | some _ => ⟨1, "error in git operations", true, true, true⟩
                | none => ⟨0, "successfully completed all operations!", true, true, true⟩

/-! ## Helper lemmas -/

theorem data_append (s t : String) : (s ++ t).data = s.data ++ t.data := rfl

theorem string_ext {s t : String} (h : s.data = t.data) : s = t := by
  cases s; cases t; exact congrArg String.mk h

theorem sanitizeChar_alnumDash (c : Char) : isAlnumDash (sanitizeChar c) = true := by
  unfold sanitizeChar isAlnumDash
  split
  · rename_i h
    rcases h with ⟨h1, h2⟩ | ⟨h1, h2⟩ | ⟨h1, h2⟩ <;> simp [h1, h2]
  · decide

theorem digitChar_alnumDash : ∀ n : Nat, isAlnumDash (digitChar n) = true
  | 0 | 1 | 2 | 3 | 4 | 5 | 6 | 7 | 8 => rfl
  | (_ + 9) => rfl

theorem goodName_no_slash {s : String} (h : goodName s = true) : '/' ∉ s.data := by
  have h2 := (Bool.and_eq_true _ _ |>.mp h).2
  simp only [Bool.not_eq_true', List.contains, List.elem_eq_mem,
    decide_eq_false_iff_not] at h2
  exact h2

theorem goodName_ne_empty {s : String} (h : goodName s = true) : s ≠ "" := by
  have h1 := (Bool.and_eq_true _ _ |>.mp h).1
  intro hs
  subst hs
  simp at h1

theorem append_slash_ne_empty (s t : String) : s ++ "/" ++ t ≠ "" := by
  intro h
  have hl := congrArg String.length h
  rw [String.length_append, String.length_append] at hl
  have e1 : ("/" : String).length = 1 := rfl
  have e2 : ("" : String).length = 0 := rfl
  omega

theorem joinComps_cons (n : String) {c : List String} (hc : c ≠ []) :
    joinComps (n :: c) = n ++ "/" ++ joinComps c := by
  cases c with
  | nil => exact absurd rfl hc
  | cons a as => rfl

theorem joinRel_shift (pre n : String) {c : List String} (hn : n ≠ "") (hc : c ≠ []) :
    joinRel pre (joinComps (n :: c)) = joinRel (joinRel pre n) (joinComps c) := by
  rw [joinComps_cons n hc]
  by_cases hpre : pre = ""
  · simp [joinRel, hpre, hn]
  · simp only [joinRel, if_neg hpre, if_neg (append_slash_ne_empty pre n)]
    simp [String.append_assoc]

theorem slash_split : ∀ (a b u v : List Char), '/' ∉ a → '/' ∉ b →
    a ++ '/' :: u = b ++ '/' :: v → a = b ∧ u = v := by
  intro a
  induction a with
  | nil =>
    intro b u v _ hb h
    cases b with
    | nil => simpa using h
    | cons d ds =>
      simp only [List.nil_append, List.cons_append, List.cons.injEq] at h
      exact absurd (by rw [h.1]; exact List.mem_cons_self _ _ : '/' ∈ d :: ds) hb
  | cons c cs ih =>
    intro b u v ha hb h
    cases b with
    | nil =>
      simp only [List.cons_append, List.nil_append, List.cons.injEq] at h
      exact absurd (by rw [h.1]; exact List.mem_cons_self _ _ : '/' ∈ c :: cs) ha
    | cons d ds =>
      simp only [List.cons_append, List.cons.injEq] at h
      have ha2 : '/' ∉ cs := fun hm => ha (List.mem_cons.mpr (Or.inr hm))
      have hb2 : '/' ∉ ds := fun hm => hb (List.mem_cons.mpr (Or.inr hm))
      obtain ⟨e1, e2⟩ := ih ds u v ha2 hb2 h.2
      exact ⟨by rw [h.1, e1], e2⟩

theorem data_joinComps_cons (n : String) {c : List String} (hc : c ≠ []) :
    (joinComps (n :: c)).data = n.data ++ '/' :: (joinComps c).data := by
  rw [joinComps_cons n hc, data_append, data_append]
  simp

theorem joinComps_inj : ∀ (c1 c2 : List String),
    (∀ s ∈ c1, goodName s = true) → (∀ s ∈ c2, goodName s = true) →
    c1 ≠ [] → c2 ≠ [] → joinComps c1 = joinComps c2 → c1 = c2 := by
  intro c1
  induction c1 with
  | nil => intro c2 _ _ h1 _ _; exact absurd rfl h1
  | cons x xs ih =>
    intro c2 hg1 hg2 _ h2 heq
    cases c2 with
    | nil => exact absurd rfl h2
    | cons y ys =>
      cases xs with
      | nil =>
        cases ys with
        | nil =>
          have : x = y := by simpa [joinComps] using heq
          rw [this]
        | cons y1 ys' =>
          exfalso
          have hx : '/' ∉ x.data := goodName_no_slash (hg1 x (List.mem_cons_self x []))
          have : (joinComps [x]).data = (joinComps (y :: y1 :: ys')).data := by rw [heq]
          rw [data_joinComps_cons y (by simp)] at this
          have hmem : '/' ∈ x.data := by
            have : x.data = y.data ++ '/' :: (joinComps (y1 :: ys')).data := this
            rw [this]
            exact List.mem_append.mpr (Or.inr (List.mem_cons_self _ _))
          exact hx hmem
      | cons x1 xs' =>
        cases ys with
        | nil =>
          exfalso
          have hy : '/' ∉ y.data := goodName_no_slash (hg2 y (List.mem_cons_self y []))
          have : (joinComps (x :: x1 :: xs')).data = (joinComps [y]).data := by rw [heq]
          rw [data_joinComps_cons x (by simp)] at this
          have hmem : '/' ∈ y.data := by
            have h' : y.data = x.data ++ '/' :: (joinComps (x1 :: xs')).data := this.symm
            rw [h']
            exact List.mem_append.mpr (Or.inr (List.mem_cons_self _ _))
          exact hy hmem
        | cons y1 ys' =>
          have hdata : (joinComps (x :: x1 :: xs')).data = (joinComps (y :: y1 :: ys')).data := by
            rw [heq]
          rw [data_joinComps_cons x (by simp), data_joinComps_cons y (by simp)] at hdata
          have hx : '/' ∉ x.data := goodName_no_slash (hg1 x (List.mem_cons_self _ _))
          have hy : '/' ∉ y.data := goodName_no_slash (hg2 y (List.mem_cons_self _ _))
          obtain ⟨e1, e2⟩ := slash_split x.data y.data _ _ hx hy hdata
          have hxy : x = y := string_ext e1
          have htail : joinComps (x1 :: xs') = joinComps (y1 :: ys') := string_ext e2
          have := ih (y1 :: ys') (fun s hs => hg1 s (List.mem_cons.mpr (Or.inr hs)))
            (fun s hs => hg2 s (List.mem_cons.mpr (Or.inr hs))) (by simp) (by simp) htail
          rw [hxy, this]

theorem filePathsC_ne_nil : ∀ (t : FsTree), ∀ c ∈ filePathsC t, c ≠ [] := by
  intro t
  induction t with
  | nil => intro c hc; simp [filePathsC] at hc
  | file n rest ih =>
    intro c hc
    rcases List.mem_cons.mp hc with rfl | h
    · simp
    · exact ih c h
  | dir n children rest ihc ihr =>
    intro c hc
    rcases List.mem_append.mp hc with h | h
    · obtain ⟨a, _, rfl⟩ := List.mem_map.mp h
      simp
    · exact ihr c h
  | bad n rest ih => intro c hc; exact ih c hc

theorem filePathsC_head : ∀ (t : FsTree), ∀ c ∈ filePathsC t,
    ∃ h tl, c = h :: tl ∧ h ∈ names t := by
  intro t
  induction t with
  | nil => intro c hc; simp [filePathsC] at hc
  | file n rest ih =>
    intro c hc
    rcases List.mem_cons.mp hc with rfl | h
    · exact ⟨n, [], rfl, List.mem_cons_self _ _⟩
    · obtain ⟨hd, tl, rfl, hm⟩ := ih c h
      exact ⟨hd, tl, rfl, List.mem_cons.mpr (Or.inr hm)⟩
  | dir n children rest ihc ihr =>
    intro c hc
    rcases List.mem_append.mp hc with h | h
    · obtain ⟨a, _, rfl⟩ := List.mem_map.mp h
      exact ⟨n, a, rfl, List.mem_cons_self _ _⟩
    · obtain ⟨hd, tl, rfl, hm⟩ := ihr c h
      exact ⟨hd, tl, rfl, List.mem_cons.mpr (Or.inr hm)⟩
  | bad n rest ih =>
    intro c hc
    obtain ⟨hd, tl, rfl, hm⟩ := ih c hc
    exact ⟨hd, tl, rfl, List.mem_cons.mpr (Or.inr hm)⟩

theorem filePathsC_good : ∀ (t : FsTree), wf t = true →
    ∀ c ∈ filePathsC t, ∀ s ∈ c, goodName s = true := by
  intro t
  induction t with
  | nil => intro _ c hc; simp [filePathsC] at hc
  | file n rest ih =>
    intro hwf c hc s hs
    simp only [wf, Bool.and_eq_true] at hwf
    rcases List.mem_cons.mp hc with rfl | h
    · rcases List.mem_cons.mp hs with rfl | h2
      · exact hwf.1.1
      · simp at h2
    · exact ih hwf.2 c h s hs
  | dir n children rest ihc ihr =>
    intro hwf c hc s hs
    simp only [wf, Bool.and_eq_true] at hwf
    rcases List.mem_append.mp hc with h | h
    · obtain ⟨a, ha, rfl⟩ := List.mem_map.mp h
      rcases List.mem_cons.mp hs with rfl | h2
      · exact hwf.1.1.1
      · exact ihc hwf.1.2 a ha s h2
    · exact ihr hwf.2 c h s hs
  | bad n rest ih => intro hwf; simp [wf] at hwf

theorem not_mem_of_contains_false {l : List String} {a : String}
    (h : l.contains a = false) : a ∉ l := by
  simp only [List.contains, List.elem_eq_mem, decide_eq_false_iff_not] at h
  exact h

theorem filePathsC_nodup : ∀ (t : FsTree), wf t = true → (filePathsC t).Nodup := by
  intro t
  induction t with
  | nil => intro _; simp [filePathsC]
  | file n rest ih =>
    intro hwf
    simp only [wf, Bool.and_eq_true, Bool.not_eq_true'] at hwf
    refine List.nodup_cons.mpr ⟨?_, ih hwf.2⟩
    intro hmem
    obtain ⟨hd, tl, he, hm⟩ := filePathsC_head rest [n] hmem
    obtain ⟨rfl, _⟩ := List.cons.injEq _ _ _ _ ▸ he
    exact not_mem_of_contains_false hwf.1.2 hm
  | dir n children rest ihc ihr =>
    intro hwf
    simp only [wf, Bool.and_eq_true, Bool.not_eq_true'] at hwf
    refine List.Nodup.append ?_ (ihr hwf.2) ?_
    · exact List.Nodup.map (fun a b hab => by simpa using hab) (ihc hwf.1.2)
    · intro c hc1 hc2
      obtain ⟨a, _, rfl⟩ := List.mem_map.mp hc1
      obtain ⟨hd, tl, he, hm⟩ := filePathsC_head rest (n :: a) hc2
      obtain ⟨rfl, _⟩ := List.cons.injEq _ _ _ _ ▸ he
      exact not_mem_of_contains_false hwf.1.1.2 hm
  | bad n rest ih => intro hwf; simp [wf] at hwf

theorem walk_wf : ∀ (t : FsTree) (pre : String), wf t = true →
    walk pre t = ((filePathsC t).map (fun c => joinRel pre (joinComps c)), none) := by
  intro t
  induction t with
  | nil => intro pre _; rfl
  | file n rest ih =>
    intro pre hwf
    simp only [wf, Bool.and_eq_true] at hwf
    simp [walk, filePathsC, ih pre hwf.2, joinComps]
  | dir n children rest ihc ihr =>
    intro pre hwf
    simp only [wf, Bool.and_eq_true] at hwf
    have hn : n ≠ "" := goodName_ne_empty hwf.1.1.1
    rw [walk, ihc (joinRel pre n) hwf.1.2, ihr pre hwf.2]
    simp only [filePathsC, List.map_append, List.map_map]
    have hmap : List.map (fun c => joinRel (joinRel pre n) (joinComps c)) (filePathsC children)
        = List.map ((fun c => joinRel pre (joinComps c)) ∘ fun c => n :: c)
            (filePathsC children) :=
      List.map_congr_left fun a ha =>
        (joinRel_shift pre n hn (filePathsC_ne_nil children a ha)).symm
    rw [hmap]
  | bad n rest ih => intro pre hwf; simp [wf] at hwf

theorem hasFile_iff : ∀ (t : FsTree) (c : List String),
    hasFile t c = true ↔ c ∈ filePathsC t := by
  intro t
  induction t with
  | nil => intro c; simp [hasFile, filePathsC]
  | file n rest ih =>
    intro c
    simp [hasFile, filePathsC, ih c, List.mem_cons]
  | dir n children rest ihc ihr =>
    intro c
    cases c with
    | nil =>
      simp only [hasFile, Bool.or_eq_true, ihr []]
      constructor
      · rintro (h | h)
        · simp at h
        · exact List.mem_append.mpr (Or.inr h)
      · intro h
        rcases List.mem_append.mp h with h | h
        · obtain ⟨a, _, ha⟩ := List.mem_map.mp h
          simp at ha
        · exact Or.inr h
    | cons n' c' =>
      simp only [hasFile, Bool.or_eq_true, Bool.and_eq_true, beq_iff_eq, ihc c', ihr (n' :: c'),
        filePathsC, List.mem_append, List.mem_map]
      constructor
      · rintro (⟨rfl, h⟩ | h)
        · exact Or.inl ⟨c', h, rfl⟩
        · exact Or.inr h
      · rintro (⟨a, ha, he⟩ | h)
        · obtain ⟨rfl, rfl⟩ := List.cons.injEq _ _ _ _ ▸ he
          exact Or.inl ⟨rfl, ha⟩
        · exact Or.inr h
  | bad n rest ih => intro c; simp [hasFile, filePathsC, ih c]

theorem walk_err : ∀ (t : FsTree) (pre : String),
    (walk pre t).2.isSome = hasBad t := by
  intro t
  induction t with
  | nil => intro pre; rfl
  | file n rest ih => intro pre; simp [walk, hasBad, ih pre]
  | dir n children rest ihc ihr =>
    intro pre
    simp only [walk, hasBad]
    cases h : (walk (joinRel pre n) children).2 with
    | some e =>
      have hb : hasBad children = true := by rw [← ihc (joinRel pre n), h]; rfl
      simp [hb, h]
    | none =>
      have hb : hasBad children = false := by rw [← ihc (joinRel pre n), h]; rfl
      simp [hb, h, ihr pre]
  | bad n rest ih => intro pre; rfl

/-! ## Claim theorems -/

/-- C1: the Workflow Orchestrator is fail-fast.  If the `k`-th external
invocation (0-indexed) fails and all earlier ones succeed, then the observed
trace consists of the directory change followed by exactly the first `k + 1`
commands (the `k` preceding invocations, each successful, plus the failing
one), no invocation after the failing one occurs, and the returned error is
the message identifying the failing step; the six step messages are pairwise
distinct. -/
theorem c1_fail_fast (branch dir happy bird : String) (runner : Nat → Bool) (k : Nat)
    (hk : k < 6) (hpre : ∀ j, j < k → runner j = true) (hfail : runner k = false) :
    (gitOperations branch dir true runner happy bird).1
      = Step.chdir dir :: ((gitCmds branch happy bird).take (k + 1)).map Step.run
    ∧ (gitOperations branch dir true runner happy bird).2 = some (stepErrMsgs.getD k "")
    ∧ stepErrMsgs.Nodup := by
  refine ⟨?_, ?_, by decide⟩ <;>
  · interval_cases k <;>
      simp_all [gitOperations, gitSteps, gitCmds, stepErrMsgs, runSeq]

/-- Witness for C1 at the spec's stub scenario: a runner failing on the 3rd
invocation (index 2).  Exactly the 2 successful invocations precede it, none
follow, and the error names the commit step. -/
theorem c1_fail_fast_witness :
    (gitOperations "b" "/t" true (fun i => !(i == 2)) "😊" "🐧").1
        = [Step.chdir "/t", Step.run ⟨"git", ["checkout", "-b", "b"]⟩,
           Step.run ⟨"git", ["add", "."]⟩, Step.run ⟨"git", ["commit", "-m", "Add b"]⟩]
    ∧ (gitOperations "b" "/t" true (fun i => !(i == 2)) "😊" "🐧").2
        = some "failed to commit changes" := by
  have h := c1_fail_fast "b" "/t" "😊" "🐧" (fun i => !(i == 2)) 2 (by decide)
    (by intro j hj; interval_cases j <;> rfl) rfl
  exact ⟨h.1.trans rfl, h.2.1.trans rfl⟩

/-- C2: on a fully successful run (chdir succeeds, every invocation
succeeds), the orchestrator performs exactly the directory change followed by
the six commands `git checkout -b`, `git add .`, `git commit -m "Add b"`,
`git push --set-upstream origin b`, `gh pr create --title b --body m`,
`gh browse`, in this order and no others, and returns no error. -/
theorem c2_success_steps (branch dir happy bird : String) :
    gitOperations branch dir true (fun _ => true) happy bird
      = ([Step.chdir dir,
          Step.run ⟨"git", ["checkout", "-b", branch]⟩,
          Step.run ⟨"git", ["add", "."]⟩,
          Step.run ⟨"git", ["commit", "-m", "Add " ++ branch]⟩,
          Step.run ⟨"git", ["push", "--set-upstream", "origin", branch]⟩,
          Step.run ⟨"gh", ["pr", "create", "--title", branch, "--body",
            "New finding! " ++ happy ++ bird]⟩,
          Step.run ⟨"gh", ["browse"]⟩], none) := rfl

/-- C3: the Selector Bridge's outcome mapping.  Exit code 130 yields the
dedicated cancellation error and never a selection; exit 0 with a line yields
that line with surrounding whitespace trimmed; exit 0 with no output yields
the empty string; any other non-zero exit, or a failure to start the binary,
yields a generic failure. -/
theorem c3_selector_outcomes :
    (∀ (line : Option String) (s : String),
        selectFileWithFzf true line 130 = .err "file selection cancelled"
        ∧ selectFileWithFzf true line 130 ≠ .ok s)
    ∧ (∀ l : String, selectFileWithFzf true (some l) 0 = .ok (trimSpace l))
    ∧ selectFileWithFzf true none 0 = .ok ""
    ∧ (∀ (line : Option String) (e : Nat), e ≠ 0 → e ≠ 130 →
        selectFileWithFzf true line e = .err "fzf failed")
    ∧ (∀ (line : Option String) (e : Nat),
        selectFileWithFzf false line e = .err "failed to start fzf") := by
  refine ⟨fun line s => ⟨rfl, by simp [selectFileWithFzf]⟩, fun l => rfl, rfl,
    fun line e h0 h130 => ?_, fun line e => rfl⟩
  simp [selectFileWithFzf, h0, h130]

/-- Witness for C3 at concrete finder outcomes, including a line surrounded
by non-ASCII whitespace (non-breaking space and vertical tab), which Go's
`strings.TrimSpace` also strips. -/
theorem c3_selector_outcomes_witness :
    selectFileWithFzf true (some " notes/idea.md ") 130 = .err "file selection cancelled"
    ∧ selectFileWithFzf true (some " notes/idea.md ") 0 = .ok "notes/idea.md"
    ∧ selectFileWithFzf true (some "\u00A0notes/idea.md\u000B") 0 = .ok "notes/idea.md"
    ∧ selectFileWithFzf true none 0 = .ok ""
    ∧ selectFileWithFzf true none 2 = .err "fzf failed"
    ∧ selectFileWithFzf false none 0 = .err "failed to start fzf" := by
  have h := c3_selector_outcomes
  exact ⟨(h.1 (some " notes/idea.md ") "").1,
    (h.2.1 " notes/idea.md ").trans (by decide),
    (h.2.1 "\u00A0notes/idea.md\u000B").trans (by decide),
    h.2.2.1, h.2.2.2.1 none 2 (by decide) (by decide), h.2.2.2.2 none 0⟩

/-- C4: the Name Deriver is a pure function of (filename, date) — it is a
Lean function of exactly those arguments — and on the spec's example it
strips directory components and the extension, sanitizes non-alphanumerics
to dashes, and appends the `YY-MM-DD` date:
`Deriver("My File v2.txt", 2024-03-05) = "My-File-v2-24-03-05"`, also when a
directory prefix is present. -/
theorem c4_name_deriver :
    generateBranchName "My File v2.txt" 2024 3 5 = "My-File-v2-24-03-05"
    ∧ generateBranchName "dir/sub/My File v2.txt" 2024 3 5 = "My-File-v2-24-03-05" :=
  ⟨rfl, rfl⟩

/-- C5 counterexample: a branch name taken from explicit `--branch` input is
used verbatim, so it can contain a space, which is neither alphanumeric nor a
dash — the claimed invariant fails for explicit user input. -/
theorem c5_counterexample :
    finalBranchName "foo bar" "x.txt" 2024 1 1 = "foo bar"
    ∧ ' ' ∈ (finalBranchName "foo bar" "x.txt" 2024 1 1).data
    ∧ isAlnumDash ' ' = false := by decide

/-- C5 amended: a branch name *derived* from the filename and date contains
only alphanumeric characters and dashes; an explicitly supplied `--branch`
value is passed through unmodified (and may contain arbitrary characters).
In either case the name is computed once and, the model being functional,
never mutated afterwards. -/
theorem c5_branch_charset :
    (∀ sel y m d, ∀ c ∈ (finalBranchName "" sel y m d).data, isAlnumDash c = true)
    ∧ (∀ flag sel y m d, flag ≠ "" → finalBranchName flag sel y m d = flag) := by
  constructor
  · intro sel y m d c hc
    have hdata : (finalBranchName "" sel y m d).data
        = (trimSuffix (filepathBase sel) (filepathExt sel)).data.map sanitizeChar
          ++ '-' :: (formatDate y m d).data := by
      simp [finalBranchName, generateBranchName, data_append]
    rw [hdata] at hc
    have hdate : (formatDate y m d).data
        = [digitChar ((y % 100 / 10) % 10), digitChar (y % 100 % 10), '-',
           digitChar ((m / 10) % 10), digitChar (m % 10), '-',
           digitChar ((d / 10) % 10), digitChar (d % 10)] := rfl
    rw [hdate] at hc
    simp only [List.mem_append, List.mem_map, List.mem_cons, List.not_mem_nil,
      or_false] at hc
    rcases hc with ⟨a, _, rfl⟩ | h
    · exact sanitizeChar_alnumDash a
    · rcases h with rfl | rfl | rfl | rfl | rfl | rfl | rfl | rfl | rfl <;>
        first | exact digitChar_alnumDash _ | decide
  · intro flag sel y m d h
    simp [finalBranchName, h]

/-- Witness for C5's amended statement on concrete inputs. -/
theorem c5_branch_charset_witness :
    isAlnumDash '-' = true ∧ finalBranchName "x y" "f.txt" 2024 1 1 = "x y" :=
  ⟨c5_branch_charset.1 "a b.txt" 2024 3 5 '-' (by decide),
   c5_branch_charset.2 "x y" "f.txt" 2024 1 1 (by decide)⟩

/-- C6 counterexample: `src/main.go` computes the destination as the target
joined with the *base* filename, so selecting `notes/idea.md` copies to
`<target>/idea.md`, not to the claimed structure-preserving
`<target>/notes/idea.md`. -/
theorem c6_counterexample :
    destPathMainGo "/repo" "notes/idea.md" = "/repo/idea.md"
    ∧ destPathMainGo "/repo" "notes/idea.md" ≠ "/repo/notes/idea.md"
    ∧ destPathMainGo "/repo" "notes/idea.md" ≠ joinPath "/repo" "notes/idea.md" := by
  decide

/-- C6 amended: the `src/unnamed/part_000` variant preserves the selected
file's path relative to the search root under the target root, while
`src/main.go` flattens the destination to the base filename directly under
the target root. -/
theorem c6_dest_paths :
    destPathPart000 "/repo" "notes/idea.md" = "/repo/notes/idea.md"
    ∧ destPathMainGo "/repo" "notes/idea.md" = "/repo/idea.md"
    ∧ (∀ target sel, destPathPart000 target sel = joinPath target sel)
    ∧ (∀ target sel, destPathMainGo target sel = joinPath target (filepathBase sel)) :=
  ⟨by decide, by decide, fun _ _ => rfl, fun _ _ => rfl⟩

/-- C7 counterexample: the bird-emoji list of `src/main.go` has 13 entries
but contains "🦅" twice (and "🐧" once), so the uniform index draw of
`rand.Intn` does not give every bird symbol the same probability — the bird
token is not drawn uniformly from a set of bird symbols. -/
theorem c7_counterexample :
    birdEmojis.length = 13
    ∧ birdEmojis.count "🦅" = 2
    ∧ birdEmojis.count "🐧" = 1
    ∧ ¬ uniformFromList birdEmojis := by decide

/-- C7 amended: in `src/main.go` the CreatePR step supplies a title equal to
the branch name and a body `"New finding! "` followed by one happy token and
one bird token; the happy token is drawn uniformly from its 6-element set,
while the bird token is drawn by a uniform index into a 13-entry list that
repeats two symbols, and both tokens always come from their respective lists.
(The `src/unnamed/part_000` variant instead uses the fixed body
`"New finding! 🙂🦉"`.) -/
theorem c7_pr_tokens (branch : String) (i j : Nat) (hi : i < 6) (hj : j < 13) :
    (getRandomEmojis i j).1 ∈ happyEmojis
    ∧ (getRandomEmojis i j).2 ∈ birdEmojis
    ∧ uniformFromList happyEmojis
    ∧ (gitCmds branch (getRandomEmojis i j).1 (getRandomEmojis i j).2).getD 4 ⟨"", []⟩
        = ⟨"gh", ["pr", "create", "--title", branch, "--body",
            "New finding! " ++ (getRandomEmojis i j).1 ++ (getRandomEmojis i j).2]⟩ := by
  refine ⟨?_, ?_, by decide, rfl⟩
  · have : i < happyEmojis.length := hi
    simp [getRandomEmojis, List.getD_eq_getElem?_getD, List.getElem?_eq_getElem this]
  · have : j < birdEmojis.length := hj
    simp [getRandomEmojis, List.getD_eq_getElem?_getD, List.getElem?_eq_getElem this]

/-- C8: on any well-formed directory tree the File Enumerator succeeds and
returns exactly the relative paths of the regular files present under the
root (directories never included), with no duplicates; the order is the
deterministic walk order (the result is a pure function of the tree). -/
theorem c8_enumerator (t : FsTree) (hwf : wf t = true) :
    findFiles (some t) = ((filePathsC t).map joinComps, none)
    ∧ (findFiles (some t)).1.Nodup
    ∧ ∀ p, p ∈ (findFiles (some t)).1 ↔ ∃ c, hasFile t c = true ∧ p = joinComps c := by
  have heq : findFiles (some t) = ((filePathsC t).map joinComps, none) := by
    rw [show findFiles (some t) = walk "" t from rfl, walk_wf t "" hwf]
    exact congrArg (fun l => (l, (none : Option String)))
      (List.map_congr_left fun a _ => rfl)
  refine ⟨heq, ?_, ?_⟩
  · rw [heq]
    exact List.Nodup.map_on
      (fun x hx y hy hxy => joinComps_inj x y (filePathsC_good t hwf x hx)
        (filePathsC_good t hwf y hy) (filePathsC_ne_nil t x hx)
        (filePathsC_ne_nil t y hy) hxy)
      (filePathsC_nodup t hwf)
  · intro p
    rw [heq]
    simp only [List.mem_map]
    constructor
    · rintro ⟨c, hc, rfl⟩
      exact ⟨c, (hasFile_iff t c).mpr hc, rfl⟩
    · rintro ⟨c, hc, rfl⟩
      exact ⟨c, (hasFile_iff t c).mp hc, rfl⟩

/-- Witness for C8 on the spec's end-to-end tree (`notes/idea.md` plus a
top-level file). -/
theorem c8_enumerator_witness :
    findFiles (some (FsTree.dir "notes" (FsTree.file "idea.md" FsTree.nil)
        (FsTree.file "top.txt" FsTree.nil)))
      = ((filePathsC (FsTree.dir "notes" (FsTree.file "idea.md" FsTree.nil)
          (FsTree.file "top.txt" FsTree.nil))).map joinComps, none)
    ∧ (findFiles (some (FsTree.dir "notes" (FsTree.file "idea.md" FsTree.nil)
        (FsTree.file "top.txt" FsTree.nil)))).1.Nodup :=
  ⟨(c8_enumerator _ (by decide)).1, (c8_enumerator _ (by decide)).2.1⟩

/-- C9: an unreadable entry (or a missing root) makes the File Enumerator
report an I/O error and abort, and the entry point then exits with code 1
without launching the selector, attempting a copy, or touching the target
repository; a missing root is already caught by the entry point's
validation, which likewise exits before selection. -/
theorem c9_enum_abort (t : FsTree) (hbad : hasBad t = true)
    (fzf : List String → FzfResult) (branchFlag targetDir : String) (y m d : Nat)
    (copyOk chdirOk : Bool) (runner : Nat → Bool) (happy bird : String) :
    (findFiles none).2.isSome = true
    ∧ (findFiles (some t)).2.isSome = true
    ∧ mainModel true (some t) true fzf branchFlag targetDir y m d copyOk chdirOk runner
        happy bird = ⟨1, "error finding files", false, false, false⟩
    ∧ mainModel true none true fzf branchFlag targetDir y m d copyOk chdirOk runner
        happy bird = ⟨1, "error: search directory does not exist", false, false, false⟩ := by
  have he : (findFiles (some t)).2.isSome = true := by
    rw [show findFiles (some t) = walk "" t from rfl, walk_err t ""]
    exact hbad
  refine ⟨rfl, he, ?_, rfl⟩
  simp [mainModel, he]

/-- Witness for C9: a tree whose second entry is unreadable.  The walk keeps
the file appended before the failure but the pipeline discards it and stops
before selection. -/
theorem c9_enum_abort_witness :
    (findFiles none).2.isSome = true
    ∧ (findFiles (some (FsTree.file "a.txt" (FsTree.bad "x" FsTree.nil)))).2.isSome = true
    ∧ mainModel true (some (FsTree.file "a.txt" (FsTree.bad "x" FsTree.nil))) true
        (fun _ => .ok "a.txt") "" "/t" 2024 1 1 true true (fun _ => true) "😊" "🐧"
        = ⟨1, "error finding files", false, false, false⟩
    ∧ mainModel true none true (fun _ => .ok "a.txt") "" "/t" 2024 1 1 true true
        (fun _ => true) "😊" "🐧"
        = ⟨1, "error: search directory does not exist", false, false, false⟩ :=
  c9_enum_abort (FsTree.file "a.txt" (FsTree.bad "x" FsTree.nil)) (by decide)
    (fun _ => .ok "a.txt") "" "/t" 2024 1 1 true true (fun _ => true) "😊" "🐧"

/-- C10: when enumeration succeeds but yields zero files, the entry point
prints the no-files message and exits with code 1 without launching the
selector, attempting a copy, or running the git workflow. -/
theorem c10_no_files (t : FsTree) (hf : findFiles (some t) = ([], none))
    (fzf : List String → FzfResult) (branchFlag targetDir : String) (y m d : Nat)
    (copyOk chdirOk : Bool) (runner : Nat → Bool) (happy bird : String) :
    mainModel true (some t) true fzf branchFlag targetDir y m d copyOk chdirOk runner
      happy bird = ⟨1, "no files found in search directory", false, false, false⟩ := by
  simp [mainModel, hf]

/-- Witness for C10 at the empty directory. -/
theorem c10_no_files_witness :
    mainModel true (some FsTree.nil) true (fun _ => .ok "x") "" "/t" 2024 1 1 true true
      (fun _ => true) "😊" "🐧"
      = ⟨1, "no files found in search directory", false, false, false⟩ :=
  c10_no_files FsTree.nil rfl (fun _ => .ok "x") "" "/t" 2024 1 1 true true
    (fun _ => true) "😊" "🐧"

/-- Witness for C7's amended statement at concrete indices. -/
theorem c7_pr_tokens_witness :
    (getRandomEmojis 0 0).1 ∈ happyEmojis
    ∧ (getRandomEmojis 0 0).2 ∈ birdEmojis
    ∧ uniformFromList happyEmojis
    ∧ (gitCmds "b" (getRandomEmojis 0 0).1 (getRandomEmojis 0 0).2).getD 4 ⟨"", []⟩
        = ⟨"gh", ["pr", "create", "--title", "b", "--body",
            "New finding! " ++ (getRandomEmojis 0 0).1 ++ (getRandomEmojis 0 0).2]⟩ :=
  c7_pr_tokens "b" 0 0 (by decide) (by decide)

end ElfOwl
